import Mathlib

/-!
# DSTC argument codec and call stubs

A shallow embedding of the code that `dstc.h` generates: the per-argument
serializer, deserializer and size computation, the iteration over a declared
argument list, the client, server and callback stubs built from them, and the
expressions that build dynamic arguments and poll event user data.

Conventions of the embedding.

* A byte is a `Fin 256`.  The host is little-endian: the tag constants of the
  header only match their four-character cookies on such a host.
* A pointer is the memory it points into together with an offset; reading
  through a pointer is total.
* An object handed to a stub by value is a finite memory image; copying more
  bytes out of it than it has is undefined in C and yields `none` here, and so
  does writing past the end of `arg_buf`.
* `sizeof(type)` is carried by the argument declaration, `sizeof(dstc_callback_t)`
  by the `Target`.
* The functions of the library that the stubs call (`dstc_queue_func`,
  `dstc_queue_callback`) and the local function behind a server stub are
  external: a stub run yields the list of calls it made, and the integer an
  external function returns is given by a function passed in.
-/

set_option linter.unusedVariables false

namespace Dstc

/-! ## Bytes, pointers and objects -/

abbrev Byte := Fin 256

/-- A pointer into memory: the memory and the offset of the byte pointed at. -/
structure Ptr where
  mem : Nat → Byte
  off : Nat

/-- Pointer arithmetic `p + n`. -/
def Ptr.add (p : Ptr) (n : Nat) : Ptr := ⟨p.mem, p.off + n⟩

/-- The `n` bytes stored at `p`, as `memcpy(dst, p, n)` reads them. -/
def Ptr.read (p : Ptr) (n : Nat) : List Byte :=
  (List.range n).map fun i => p.mem (p.off + i)

/-- Memory that holds the bytes of `l` from offset 0 on and `rest` after them. -/
def memory_of (l : List Byte) (rest : Nat → Byte) : Nat → Byte :=
  fun i => if h : i < l.length then l.get ⟨i, h⟩ else rest (i - l.length)

/-- Host-endian memory image of a `uint16_t`. -/
def u16_image (v : Nat) : List Byte :=
  [⟨v % 256, Nat.mod_lt _ (by decide)⟩, ⟨v / 256 % 256, Nat.mod_lt _ (by decide)⟩]

/-- The `uint16_t` stored at `p`, host-endian. -/
def u16_at (p : Ptr) : Nat := (p.mem p.off).val + 256 * (p.mem (p.off + 1)).val

/-- Struct `dstc_dynamic_data_t`: `uint16_t length; const void* data;`. -/
structure dstc_dynamic_data_t where
  length : Nat
  data : Ptr

/-- An object as a generated function holds it in a parameter `_a<id>`. -/
inductive CObject where
  /-- An object of a non-pointer type, given by its memory image. -/
  | val (image : List Byte)
  /-- A pointer (an array parameter is adjusted to one): the image of the
  pointer itself and the address it holds. -/
  | ptr (image : List Byte) (target : Ptr)
  /-- A `dstc_dynamic_data_t` passed by value. -/
  | dyn (d : dstc_dynamic_data_t)

/-- The first `n` bytes at `&_a`, as `memcpy(dst, &_a, n)` reads them; `none`
when that reads past the object. -/
def CObject.image (a : CObject) (n : Nat) : Option (List Byte) :=
  match a with
  | .val image => if n ≤ image.length then some (image.take n) else none
  | .ptr image _ => if n ≤ image.length then some (image.take n) else none
  | .dyn _ => none

/-- The pointer read by `*(void**) &_a`. -/
def CObject.deref (a : CObject) : Option Ptr :=
  match a with
  | .ptr _ target => some target
  | _ => none

/-- The struct seen through `(dstc_dynamic_data_t*) &_a`. -/
def CObject.as_dyn (a : CObject) : Option dstc_dynamic_data_t :=
  match a with
  | .dyn d => some d
  | _ => none

/-- The compilation target: `sizeof(dstc_callback_t)`, the width of `intptr_t`. -/
structure Target where
  sizeof_callback : Nat

/-! ## Declared arguments and their kind -/

/-- One `type, size` pair of a declared argument list: the spelling of the
type, `sizeof(type)`, and the array size (`none` when `size` is left empty). -/
structure ArgDecl where
  type : String
  width : Nat
  size : Option Nat

/-- The value of `sizeof(type size)`. -/
def ArgDecl.sizeof (d : ArgDecl) : Nat :=
  match d.size with
  | none => d.width
  | some n => n * d.width

def DSTC_DYNARG_TAG : Nat := 0x43545344

def DSTC_CALLBACK_TAG : Nat := 0x4B434243

/-- The bytes of the string literal `#type` that `*(uint32_t*) #type` can reach:
the spelling of the type, its terminating zero byte, and zero for the bytes
after that one.  (A spelling shorter than four characters has its zero byte
among the four bytes read, so the word read equals neither tag whatever the
bytes after the literal are.) -/
def type_bytes (type : String) : List Nat :=
  ((type.toList.flatMap String.utf8EncodeChar).map fun b => b.toNat) ++ [0, 0, 0, 0]

/-- The value of `*(uint32_t*) #type`: the first four bytes of the stringified
type name read as a host-endian 32-bit integer. -/
def type_tag (type : String) : Nat :=
  let b := type_bytes type
  b.getD 0 0 + 256 * b.getD 1 0 + 65536 * b.getD 2 0 + 16777216 * b.getD 3 0

/-! ## Iteration over the declared arguments -/

/-- The chain `_FE0`, `_FE2`, ..., `_FE32`: `_FE n` stands for the header's
`_FE(2n)`; it applies `_call` to identifier `n` and the first pair and hands the
remaining pairs to the next lower member.  `_FE0` takes no pair. -/
def _FE {β : Type} (_call : Nat → ArgDecl → β) : Nat → List ArgDecl → Option (List β)
  | 0, [] => some []
  | n + 1, d :: rest => (_FE _call n rest).map fun out => _call (n + 1) d :: out
  | _, _ => none

/-- The selection made by `_GET_NTH_ARG` over complete pairs: `k` pairs select
`_FE(2k)`, for at most 16 pairs. -/
def FOR_EACH_VARIADIC_MACRO {β : Type} (_call : Nat → ArgDecl → β) (args : List ArgDecl) :
    Option (List β) :=
  if args.length ≤ 16 then _FE _call args.length args else none

/-- The chain `_LE0`, ..., `_LE32`: as `_FE`, the outputs separated by commas. -/
def _LE {β : Type} (_call : Nat → ArgDecl → β) : Nat → List ArgDecl → Option (List β)
  | 0, [] => some []
  | n + 1, d :: rest => (_LE _call n rest).map fun out => _call (n + 1) d :: out
  | _, _ => none

def FOR_EACH_VARIADIC_MACRO_ELEM {β : Type} (_call : Nat → ArgDecl → β) (args : List ArgDecl) :
    Option (List β) :=
  if args.length ≤ 16 then _LE _call args.length args else none

/-! ## The sending side -/

/-- The parameters of a generated function: identifier `id` stands for `_a<id>`. -/
abbrev Env := List (Nat × CObject)

/-- The output buffer `uint8_t arg_buf[arg_sz]` and the cursor `payload`, kept
as an offset into it. -/
structure Writer where
  arg_buf : List Byte
  payload : Nat

/-- The call `memcpy(payload, src, n)` with `src` the `n` bytes to copy; `none`
when it would write past the end of `arg_buf`. -/
def Writer.memcpy (w : Writer) (src : List Byte) : Option Writer :=
  if w.payload + src.length ≤ w.arg_buf.length then
    some { w with
      arg_buf := w.arg_buf.take w.payload ++ src ++ w.arg_buf.drop (w.payload + src.length) }
  else none

/-- The statement `payload += n`. -/
def Writer.advance (w : Writer) (n : Nat) : Writer := { w with payload := w.payload + n }

/-- The statement `SERIALIZE_ARGUMENT(arg_id, type, size)`. -/
def SERIALIZE_ARGUMENT (t : Target) (env : Env) (arg_id : Nat) (d : ArgDecl) (w : Writer) :
    Option Writer := do
  let a ← env.lookup arg_id
  if type_tag d.type = DSTC_DYNARG_TAG then
    let tmp ← a.as_dyn
    let w ← w.memcpy (u16_image tmp.length)
    let w := w.advance 2
    let w ← w.memcpy (tmp.data.read tmp.length)
    pure (w.advance tmp.length)
  else if type_tag d.type = DSTC_CALLBACK_TAG then
    let src ← a.image t.sizeof_callback
    let w ← w.memcpy src
    pure (w.advance t.sizeof_callback)
  else if d.sizeof = d.width then
    let src ← a.image d.sizeof
    let w ← w.memcpy src
    pure (w.advance d.sizeof)
  else
    let tmp ← a.deref
    let w ← w.memcpy (tmp.read d.sizeof)
    pure (w.advance d.sizeof)

/-- The inline function `dstc_dyndata_length`. -/
def dstc_dyndata_length (dyndata : dstc_dynamic_data_t) : Nat := dyndata.length

/-- The term `SIZE_ARGUMENT(arg_id, type, size)` without its trailing `+`. -/
def SIZE_ARGUMENT (env : Env) (arg_id : Nat) (d : ArgDecl) : Option Nat :=
  if type_tag d.type = DSTC_DYNARG_TAG then do
    let a ← env.lookup arg_id
    let tmp ← a.as_dyn
    pure (4 + dstc_dyndata_length tmp)
  else
    some d.sizeof

/-- Parameter declaration `type _a<arg_id> size`: the identifier and its declaration. -/
def DECLARE_ARGUMENT (arg_id : Nat) (d : ArgDecl) : Nat × ArgDecl := (arg_id, d)

/-- The expression `_a<arg_id>`. -/
def LIST_ARGUMENT (arg_id : Nat) (_d : ArgDecl) : Nat := arg_id

/-- Statements run one after the other. -/
def run_all {σ : Type} : List (σ → Option σ) → σ → Option σ
  | [], s => some s
  | stmt :: rest, s => (stmt s).bind (run_all rest)

/-- The sum `t1 + t2 + ... + 0` of the terms. -/
def sum_all : List (Option Nat) → Option Nat
  | [] => some 0
  | term :: rest => term.bind fun a => (sum_all rest).map fun b => a + b

def SERIALIZE_ARGUMENTS (t : Target) (env : Env) (args : List ArgDecl) (w : Writer) :
    Option Writer :=
  (FOR_EACH_VARIADIC_MACRO (SERIALIZE_ARGUMENT t env) args).bind fun stmts => run_all stmts w

def SIZE_ARGUMENTS (env : Env) (args : List ArgDecl) : Option Nat :=
  (FOR_EACH_VARIADIC_MACRO (SIZE_ARGUMENT env) args).bind sum_all

def DECLARE_ARGUMENTS (args : List ArgDecl) : Option (List (Nat × ArgDecl)) :=
  FOR_EACH_VARIADIC_MACRO_ELEM DECLARE_ARGUMENT args

def LIST_ARGUMENTS (args : List ArgDecl) : Option (List Nat) :=
  FOR_EACH_VARIADIC_MACRO_ELEM LIST_ARGUMENT args

/-- Binding of the actual arguments of a call, in order, to the declared
parameters; `none` when their number differs. -/
def bind_parameters : List (Nat × ArgDecl) → List CObject → Option Env
  | [], [] => some []
  | (arg_id, _) :: params, a :: actuals =>
      (bind_parameters params actuals).map fun env => (arg_id, a) :: env
  | _, _ => none

/-- What a stub passes to a function it calls. -/
inductive Local where
  /-- A declared variable that nothing was stored in yet. -/
  | indeterminate
  /-- The bytes stored in the variable `_a<id>`; an array variable is passed
  as a pointer to them. -/
  | bytes (image : List Byte)
  /-- A `dstc_dynamic_data_t` variable. -/
  | dyn (d : dstc_dynamic_data_t)

/-- A call made by a stub to a function outside it. -/
inductive Call where
  /-- The call `dstc_queue_func(0, name, arg_buf, arg_sz)`. -/
  | queue_func (name : String) (arg_buf : List Byte) (arg_sz : Nat)
  /-- The call `dstc_queue_callback(0, addr, arg_buf, arg_sz)`. -/
  | queue_callback (addr : Int) (arg_buf : List Byte) (arg_sz : Nat)
  /-- The call `name(LIST_ARGUMENTS(...))` of the local function. -/
  | local_function (name : String) (actuals : List Local)

/-- The array `uint8_t arg_buf[arg_sz]` before anything is stored in it: byte `i`
holds whatever `stack i` is. -/
def declare_arg_buf (arg_sz : Nat) (stack : Nat → Byte) : List Byte :=
  (List.range arg_sz).map stack

/-- The function `dstc_<name>` generated by `DSTC_CLIENT(name, ...)`, called with
`actuals`: the value it returns and the calls it makes. -/
def DSTC_CLIENT (t : Target) (name : String) (args : List ArgDecl)
    (dstc_queue_func : String → List Byte → Nat → Int) (stack : Nat → Byte)
    (actuals : List CObject) : Option (Int × List Call) := do
  let params ← DECLARE_ARGUMENTS args
  let env ← bind_parameters params actuals
  let arg_sz := (← SIZE_ARGUMENTS env args) % 2 ^ 32
  let arg_buf := declare_arg_buf arg_sz stack
  let w ← SERIALIZE_ARGUMENTS t env args ⟨arg_buf, 0⟩
  pure (dstc_queue_func name w.arg_buf arg_sz, [Call.queue_func name w.arg_buf arg_sz])

/-- The function `dstc_<name>` generated by `DSTC_SERVER_CALLBACK(name, ...)`,
called with `cb_ref` and `actuals`.  With an empty argument list the parameter
list `(dstc_callback_t cb_ref, )` does not compile. -/
def DSTC_SERVER_CALLBACK (t : Target) (args : List ArgDecl)
    (dstc_queue_callback : Int → List Byte → Nat → Int) (stack : Nat → Byte)
    (cb_ref : Int) (actuals : List CObject) : Option (Int × List Call) := do
  if args.isEmpty then none
  let params ← DECLARE_ARGUMENTS args
  let env ← bind_parameters params actuals
  let arg_sz := (← SIZE_ARGUMENTS env args) % 2 ^ 32
  let arg_buf := declare_arg_buf arg_sz stack
  if cb_ref = 0 then
    pure (0, [])
  else
    let w ← SERIALIZE_ARGUMENTS t env args ⟨arg_buf, 0⟩
    pure (dstc_queue_callback cb_ref w.arg_buf arg_sz,
      [Call.queue_callback cb_ref w.arg_buf arg_sz])

/-! ## The receiving side -/

/-- The cursor `payload` into the inbound buffer and the variables `_a<id>` of
the generated function, the latest store first. -/
structure Reader where
  payload : Ptr
  frame : List (Nat × Local)

/-- Stores `v` in the variable `_a<arg_id>`. -/
def Reader.store (r : Reader) (arg_id : Nat) (v : Local) : Reader :=
  { r with frame := (arg_id, v) :: r.frame }

/-- The statement `payload += n`. -/
def Reader.advance (r : Reader) (n : Nat) : Reader := { r with payload := r.payload.add n }

/-- The declaration `type _a<arg_id> size; type *_a_ptr<arg_id> = (type*) &_a<arg_id>;`. -/
def DECLARE_VARIABLE (arg_id : Nat) (d : ArgDecl) (r : Reader) : Option Reader :=
  some (r.store arg_id Local.indeterminate)

/-- The statement `DESERIALIZE_ARGUMENT(arg_id, type, size)`. -/
def DESERIALIZE_ARGUMENT (t : Target) (arg_id : Nat) (d : ArgDecl) (r : Reader) :
    Option Reader := do
  let _ ← r.frame.lookup arg_id
  if type_tag d.type = DSTC_DYNARG_TAG then
    let length := u16_at r.payload
    let r := r.advance 2
    let data := r.payload
    let r := r.advance length
    pure (r.store arg_id (Local.dyn ⟨length, data⟩))
  else if type_tag d.type = DSTC_CALLBACK_TAG then
    let r := r.store arg_id (Local.bytes (r.payload.read t.sizeof_callback))
    pure (r.advance t.sizeof_callback)
  else
    let r :=
      if d.sizeof = d.width then
        r.store arg_id (Local.bytes (r.payload.read d.sizeof))
      else
        r.store arg_id (Local.bytes (r.payload.read d.sizeof))
    pure (r.advance d.sizeof)

def DECLARE_VARIABLES (args : List ArgDecl) (r : Reader) : Option Reader :=
  (FOR_EACH_VARIADIC_MACRO DECLARE_VARIABLE args).bind fun stmts => run_all stmts r

def DESERIALIZE_ARGUMENTS (t : Target) (args : List ArgDecl) (r : Reader) : Option Reader :=
  (FOR_EACH_VARIADIC_MACRO (DESERIALIZE_ARGUMENT t) args).bind fun stmts => run_all stmts r

/-- The function `dstc_server_<name>` generated by `DSTC_SERVER_INTERNAL(name, ...)`:
the calls it makes. -/
def DSTC_SERVER_INTERNAL (t : Target) (name : String) (args : List ArgDecl)
    (unused : Int) (node_id : Nat) (func_name : List Byte) (payload : Ptr)
    (payload_len : Nat) : Option (List Call) := do
  let r ← DECLARE_VARIABLES args ⟨payload, []⟩
  let r ← DESERIALIZE_ARGUMENTS t args r
  let ids ← LIST_ARGUMENTS args
  let actuals ← ids.mapM fun arg_id => r.frame.lookup arg_id
  pure [Call.local_function name actuals]

/-- The stub generated by `DSTC_SERVER(name, ...)`: the declaration of the local
function and the static `DSTC_SERVER_INTERNAL(name, ...)`. -/
def DSTC_SERVER (t : Target) (name : String) (args : List ArgDecl)
    (unused : Int) (node_id : Nat) (func_name : List Byte) (payload : Ptr)
    (payload_len : Nat) : Option (List Call) :=
  DSTC_SERVER_INTERNAL t name args unused node_id func_name payload payload_len

/-- The dispatcher `_dstc_cb_<_func>` generated by `DSTC_CLIENT_CALLBACK(_func, ...)`:
the calls it makes. -/
def DSTC_CLIENT_CALLBACK (t : Target) (_func : String) (args : List ArgDecl)
    (callback_ref : Int) (node_id : Nat) (func_name : List Byte) (payload : Ptr)
    (payload_len : Nat) : Option (List Call) := do
  let r ← DECLARE_VARIABLES args ⟨payload, []⟩
  let r ← DESERIALIZE_ARGUMENTS t args r
  let ids ← LIST_ARGUMENTS args
  let actuals ← ids.mapM fun arg_id => r.frame.lookup arg_id
  pure [Call.local_function _func actuals]

/-- A pointer to a null-terminated string: some byte at or after it is zero. -/
def Terminated (s : Ptr) : Prop := ∃ n, s.mem (s.off + n) = 0

/-- The library function `strlen`: the number of bytes before the first zero byte. -/
def strlen (s : Ptr) (h : Terminated s) : Nat := Nat.find h

/-- The expression `DSTC_DYNAMIC_ARG(_data, _length)` for a non-negative `_length`:
the cast `(uint16_t) _length` reduces it modulo 65536. -/
def DSTC_DYNAMIC_ARG (_data : Ptr) (_length : Nat) : dstc_dynamic_data_t :=
  { length := _length % 65536, data := _data }

/-- The expression `DSTC_STRING_ARG(_data)`: the cast applies to `strlen(_data)`,
one is added to the result, and the sum is stored in the `uint16_t` field. -/
def DSTC_STRING_ARG (_data : Ptr) (h : Terminated _data) : dstc_dynamic_data_t :=
  { length := (strlen _data h % 65536 + 1) % 65536, data := _data }

/-! ## Poll event user data -/

def DSTC_EVENT_FLAG : Nat := 0x80000000

/-- The complement `~x` of an `unsigned int` `x`. -/
def complement_u32 (x : Nat) : Nat := 2 ^ 32 - 1 - x % 2 ^ 32

/-- The expression `TO_POLL_EVENT_USER_DATA(_index, is_pub)`.  Its body names
`index`, which is whatever this identifier stands for where the expression is
used, and does not name the parameter `_index`.  The value of
`USER_DATA_PUB_FLAG`, which the header does not define, is passed in. -/
def TO_POLL_EVENT_USER_DATA (USER_DATA_PUB_FLAG index _index : Nat) (is_pub : Bool) : Nat :=
  index ||| (if is_pub then USER_DATA_PUB_FLAG else 0) ||| DSTC_EVENT_FLAG

/-- The expression `FROM_POLL_EVENT_USER_DATA(_user_data)`.  The value of
`USER_DATA_INDEX_MASK`, which the header does not define, is passed in. -/
def FROM_POLL_EVENT_USER_DATA (USER_DATA_INDEX_MASK _user_data : Nat) : Nat :=
  _user_data &&& USER_DATA_INDEX_MASK &&& complement_u32 DSTC_EVENT_FLAG

/-! ## Helper definitions for the statements -/

/-- The identifiers `n, n-1, ..., 1` that a list of `n` pairs is given, first pair first. -/
def arg_ids : Nat → List Nat
  | 0 => []
  | n + 1 => (n + 1) :: arg_ids n

/-- The bytes `SERIALIZE_ARGUMENT` copies into `arg_buf` for the object `a`
declared as `d`; `none` where the copy is undefined. -/
def encoded (t : Target) (d : ArgDecl) (a : CObject) : Option (List Byte) :=
  if type_tag d.type = DSTC_DYNARG_TAG then
    a.as_dyn.map fun tmp => u16_image tmp.length ++ tmp.data.read tmp.length
  else if type_tag d.type = DSTC_CALLBACK_TAG then
    a.image t.sizeof_callback
  else if d.sizeof = d.width then
    a.image d.sizeof
  else
    a.deref.map fun tmp => tmp.read d.sizeof

/-- The encoded arguments one after the other, first declared argument first. -/
def encoded_all (t : Target) : List ArgDecl → List CObject → Option (List Byte)
  | [], [] => some []
  | d :: ds, a :: rest =>
      (encoded t d a).bind fun b => (encoded_all t ds rest).map fun bs => b ++ bs
  | _, _ => none

/-- The value of the term `SIZE_ARGUMENT` for the object `a` declared as `d`. -/
def size_term (d : ArgDecl) (a : CObject) : Nat :=
  if type_tag d.type = DSTC_DYNARG_TAG then
    match a with
    | .dyn tmp => 4 + tmp.length
    | _ => 0
  else d.sizeof

/-- The sum of the terms of `SIZE_ARGUMENTS` over a whole argument list. -/
def size_sum : List ArgDecl → List CObject → Nat
  | d :: ds, a :: rest => size_term d a + size_sum ds rest
  | _, _ => 0

/-- The object `a` is a value of the declared argument `d`: a scalar is an image
of `sizeof(type)` bytes, a fixed array a pointer to its elements, a dynamic
blob a `dstc_dynamic_data_t` whose length is a `uint16_t`, a callback reference
an image of `sizeof(dstc_callback_t)` bytes.  For an array as large as one
element the element is no larger than the pointer, so that the copy made from
the parameter stays inside it. -/
def has_shape (t : Target) (d : ArgDecl) (a : CObject) : Bool :=
  if type_tag d.type = DSTC_DYNARG_TAG then
    match d.size, a with
    | none, .dyn blob => decide (blob.length < 65536)
    | _, _ => false
  else if type_tag d.type = DSTC_CALLBACK_TAG then
    match d.size, a with
    | none, .val image => decide (d.width = t.sizeof_callback ∧ image.length = t.sizeof_callback)
    | _, _ => false
  else
    match d.size, a with
    | none, .val image => decide (image.length = d.width)
    | some n, .ptr image _ => decide (n * d.width = d.width → d.width ≤ image.length)
    | _, _ => false

/-- Every actual argument is a value of the argument declared at its position. -/
def has_shapes (t : Target) : List ArgDecl → List CObject → Bool
  | [], [] => true
  | d :: ds, a :: rest => has_shape t d a && has_shapes t ds rest
  | _, _ => false

/-- The store made by `w.memcpy src` followed by `payload += src.length`. -/
def Writer.put (w : Writer) (src : List Byte) : Option Writer :=
  (w.memcpy src).map fun w1 => w1.advance src.length

/-- The environment `env` holds the objects `actuals` under the identifiers
`n, n-1, ..., 1`, in this order. -/
def Bound (env : Env) : Nat → List CObject → Prop
  | 0, [] => True
  | n + 1, a :: rest => env.lookup (n + 1) = some a ∧ Bound env n rest
  | _, _ => False

/-- The value `DESERIALIZE_ARGUMENT` stores in the variable of a declared argument
when the cursor is `p`, and the cursor after it. -/
def decoded (t : Target) (d : ArgDecl) (p : Ptr) : Local × Ptr :=
  if type_tag d.type = DSTC_DYNARG_TAG then
    (Local.dyn ⟨u16_at p, p.add 2⟩, (p.add 2).add (u16_at p))
  else if type_tag d.type = DSTC_CALLBACK_TAG then
    (Local.bytes (p.read t.sizeof_callback), p.add t.sizeof_callback)
  else
    (Local.bytes (p.read d.sizeof), p.add d.sizeof)

/-- The values stored for a whole argument list read from `p` on, first declared
argument first. -/
def decoded_all (t : Target) : List ArgDecl → Ptr → List Local
  | [], _ => []
  | d :: ds, p => (decoded t d p).1 :: decoded_all t ds (decoded t d p).2

/-- The memory at `p` holds the bytes `b`. -/
def Ptr.holds (p : Ptr) (b : List Byte) : Prop :=
  ∀ i (h : i < b.length), p.mem (p.off + i) = b.get ⟨i, h⟩

/-- The value `v` passed on the receiving side is the value `a` given on the
sending side: scalars and callback references have the same image, the array
passed has the bytes of the array given, and dynamic blobs have the same
length and the same bytes. -/
def same_value (d : ArgDecl) (a : CObject) (v : Local) : Prop :=
  match a, v with
  | .val image, .bytes image1 => image1 = image
  | .ptr _ target, .bytes image1 => image1 = target.read d.sizeof
  | .dyn blob, .dyn blob1 =>
      blob1.length = blob.length ∧ blob1.data.read blob1.length = blob.data.read blob.length
  | _, _ => False

/-- The values passed are the values given, position by position. -/
def same_values : List ArgDecl → List CObject → List Local → Prop
  | [], [], [] => True
  | d :: ds, a :: rest, v :: vs => same_value d a v ∧ same_values ds rest vs
  | _, _, _ => False

/-- The argument is not an array as large as one element of it. -/
def regular (d : ArgDecl) : Prop := d.size = none ∨ d.sizeof ≠ d.width

/-- The array `arg_buf[arg_sz]` after the bytes `bs` were stored at its start:
`bs`, then the bytes of the array that nothing was stored in. -/
def filled (bs : List Byte) (arg_sz : Nat) (stack : Nat → Byte) : List Byte :=
  bs ++ (declare_arg_buf arg_sz stack).drop bs.length

/-- The first `k` statements of `SERIALIZE_ARGUMENTS(...)`, run from `w`. -/
def SERIALIZE_ARGUMENTS_upto (t : Target) (env : Env) (args : List ArgDecl) (k : Nat)
    (w : Writer) : Option Writer :=
  (FOR_EACH_VARIADIC_MACRO (SERIALIZE_ARGUMENT t env) args).bind fun stmts =>
    run_all (stmts.take k) w

/-- The host-endian 32-bit word made of four bytes. -/
def word32 (b : List Nat) : Nat :=
  b.getD 0 0 + 256 * b.getD 1 0 + 65536 * b.getD 2 0 + 16777216 * b.getD 3 0

/-- The bytes of "hello world" in memory, followed by zero bytes. -/
def hello_world : Ptr :=
  ⟨memory_of [0x68, 0x65, 0x6C, 0x6C, 0x6F, 0x20, 0x77, 0x6F, 0x72, 0x6C, 0x64] (fun _ => 0), 0⟩

/-- A string of 65535 letters `a` and its terminating zero byte. -/
def long_string : Ptr := ⟨fun i => if i < 65535 then 0x61 else 0, 0⟩

/-- A `char` array of one element holding 0x41. -/
def one_char : Ptr := ⟨memory_of [0x41] (fun _ => 0), 0⟩

/-- An `int` array of one element holding 1. -/
def one_int : Ptr := ⟨memory_of [1, 0, 0, 0] (fun _ => 0), 0⟩

/-- An output buffer of `n` bytes, each 0xEE, with the cursor at its start. -/
def fresh (n : Nat) : Writer := ⟨declare_arg_buf n (fun _ => 0xEE), 0⟩

/-- An inbound buffer: four bytes 0xAA, then a blob of the three bytes 1, 2, 3
with its length, then the byte 9. -/
def inbound : Nat → Byte := memory_of [0xAA, 0xAA, 0xAA, 0xAA, 3, 0, 1, 2, 3, 9] (fun _ => 0)

/-! ## Lemmas on the buffer -/

theorem Ptr.length_read (p : Ptr) (n : Nat) : (p.read n).length = n := by
  simp [Ptr.read]

theorem length_u16_image (v : Nat) : (u16_image v).length = 2 := rfl

theorem Writer.put_eq (w : Writer) (src : List Byte)
    (h : w.payload + src.length ≤ w.arg_buf.length) :
    w.put src = some
      { arg_buf := w.arg_buf.take w.payload ++ src ++ w.arg_buf.drop (w.payload + src.length),
        payload := w.payload + src.length } := by
  simp [Writer.put, Writer.memcpy, Writer.advance, h]

theorem Writer.put_none (w : Writer) (src : List Byte)
    (h : ¬ w.payload + src.length ≤ w.arg_buf.length) : w.put src = none := by
  simp [Writer.put, Writer.memcpy, h]

theorem Writer.put_bounds (w w1 : Writer) (src : List Byte) (h : w.put src = some w1) :
    w1.payload ≤ w1.arg_buf.length := by
  by_cases hle : w.payload + src.length ≤ w.arg_buf.length
  · rw [Writer.put_eq w src hle] at h
    cases h
    simp only [List.length_append, List.length_take, List.length_drop]
    omega
  · rw [Writer.put_none w src hle] at h
    cases h

theorem Writer.put_nil (w : Writer) (h : w.payload ≤ w.arg_buf.length) : w.put [] = some w := by
  rw [Writer.put_eq w [] (by simpa using h)]
  simp

theorem Writer.put_append (w : Writer) (b1 b2 : List Byte) :
    (w.put b1).bind (fun w1 => w1.put b2) = w.put (b1 ++ b2) := by
  by_cases h1 : w.payload + b1.length ≤ w.arg_buf.length
  · rw [Writer.put_eq w b1 h1]
    simp only [Option.some_bind]
    by_cases h2 : w.payload + (b1 ++ b2).length ≤ w.arg_buf.length
    · rw [Writer.put_eq w _ h2, Writer.put_eq]
      · simp only [List.length_append] at h2 ⊢
        have hp : w.payload ≤ w.arg_buf.length := by omega
        have e1 : (List.take w.payload w.arg_buf ++ b1).length = w.payload + b1.length := by
          simp [List.length_take, hp]
        have hA : List.take (w.payload + b1.length)
            (List.take w.payload w.arg_buf ++ b1 ++ List.drop (w.payload + b1.length) w.arg_buf)
            = List.take w.payload w.arg_buf ++ b1 := List.take_left' e1
        have hB : List.drop (w.payload + b1.length + b2.length)
            (List.take w.payload w.arg_buf ++ b1 ++ List.drop (w.payload + b1.length) w.arg_buf)
            = List.drop (w.payload + (b1.length + b2.length)) w.arg_buf := by
          rw [← e1, List.drop_append, List.drop_drop, e1]
          congr 1
          omega
        rw [hA, hB]
        simp [List.append_assoc, Nat.add_assoc]
      · simp only [List.length_append, List.length_take, List.length_drop] at h2 ⊢
        omega
    · rw [Writer.put_none w _ h2, Writer.put_none]
      simp only [List.length_append, List.length_take, List.length_drop] at h2 ⊢
      omega
  · rw [Writer.put_none w b1 h1, Writer.put_none]
    · rfl
    · simp only [List.length_append]; omega

/-! ## Lemmas on the iteration and the sending side -/

theorem SERIALIZE_ARGUMENT_eq (t : Target) (env : Env) (arg_id : Nat) (d : ArgDecl) (w : Writer) :
    SERIALIZE_ARGUMENT t env arg_id d w
      = (env.lookup arg_id).bind fun a => (encoded t d a).bind fun b => w.put b := by
  unfold SERIALIZE_ARGUMENT encoded
  cases hl : List.lookup arg_id env with
  | none => rfl
  | some a =>
    simp only [bind, Option.bind, pure]
    split_ifs with h1 h2 h3
    · cases a with
      | val image => rfl
      | ptr image target => rfl
      | dyn tmp =>
        simp only [CObject.as_dyn, Option.map]
        rw [← Writer.put_append]
        simp only [Writer.put, Option.map, Option.bind]
        cases hm : w.memcpy (u16_image tmp.length) with
        | none => rfl
        | some w1 =>
          simp only [length_u16_image, Ptr.length_read]
          cases (w1.advance 2).memcpy (tmp.data.read tmp.length) <;> rfl
    · cases hi : a.image t.sizeof_callback with
      | none => rfl
      | some b =>
        have hb : b.length = t.sizeof_callback := by
          cases a with
          | val image =>
            simp only [CObject.image] at hi
            split_ifs at hi with hle
            cases hi
            simp [List.length_take, hle]
          | ptr image target =>
            simp only [CObject.image] at hi
            split_ifs at hi with hle
            cases hi
            simp [List.length_take, hle]
          | dyn tmp => cases hi
        simp only [Writer.put, Option.map, hb]
        cases w.memcpy b <;> rfl
    · cases hi : a.image d.sizeof with
      | none => rfl
      | some b =>
        have hb : b.length = d.sizeof := by
          cases a with
          | val image =>
            simp only [CObject.image] at hi
            split_ifs at hi with hle
            cases hi
            simp [List.length_take, hle]
          | ptr image target =>
            simp only [CObject.image] at hi
            split_ifs at hi with hle
            cases hi
            simp [List.length_take, hle]
          | dyn tmp => cases hi
        simp only [Writer.put, Option.map, hb]
        cases w.memcpy b <;> rfl
    · cases a with
      | val image => rfl
      | dyn tmp => rfl
      | ptr image target =>
        simp only [CObject.deref, Option.map, Writer.put, Ptr.length_read]
        cases w.memcpy (target.read d.sizeof) <;> rfl

theorem _FE_eq {β : Type} (_call : Nat → ArgDecl → β) (args : List ArgDecl) :
    _FE _call args.length args = some (List.zipWith _call (arg_ids args.length) args) := by
  induction args with
  | nil => rfl
  | cons d rest ih => simp [_FE, arg_ids, ih]

theorem _LE_eq {β : Type} (_call : Nat → ArgDecl → β) (args : List ArgDecl) :
    _LE _call args.length args = some (List.zipWith _call (arg_ids args.length) args) := by
  induction args with
  | nil => rfl
  | cons d rest ih => simp [_LE, arg_ids, ih]

theorem FOR_EACH_VARIADIC_MACRO_eq {β : Type} (_call : Nat → ArgDecl → β) (args : List ArgDecl)
    (h : args.length ≤ 16) :
    FOR_EACH_VARIADIC_MACRO _call args
      = some (List.zipWith _call (arg_ids args.length) args) := by
  simp [FOR_EACH_VARIADIC_MACRO, h, _FE_eq]

theorem FOR_EACH_VARIADIC_MACRO_ELEM_eq {β : Type} (_call : Nat → ArgDecl → β)
    (args : List ArgDecl) (h : args.length ≤ 16) :
    FOR_EACH_VARIADIC_MACRO_ELEM _call args
      = some (List.zipWith _call (arg_ids args.length) args) := by
  simp [FOR_EACH_VARIADIC_MACRO_ELEM, h, _LE_eq]

theorem has_shapes_length (t : Target) :
    ∀ (args : List ArgDecl) (actuals : List CObject),
      has_shapes t args actuals = true → actuals.length = args.length
  | [], [], _ => rfl
  | [], _ :: _, h => by simp [has_shapes] at h
  | _ :: _, [], h => by simp [has_shapes] at h
  | d :: ds, a :: rest, h => by
    simp only [has_shapes, Bool.and_eq_true] at h
    simp [has_shapes_length t ds rest h.2]

theorem bind_parameters_eq :
    ∀ (args : List ArgDecl) (actuals : List CObject), actuals.length = args.length →
      bind_parameters (List.zipWith DECLARE_ARGUMENT (arg_ids args.length) args) actuals
        = some (List.zip (arg_ids args.length) actuals)
  | [], [], _ => rfl
  | [], _ :: _, h => by simp at h
  | _ :: _, [], h => by simp at h
  | d :: ds, a :: rest, h => by
    have h1 : rest.length = ds.length := by simpa using h
    simp [arg_ids, bind_parameters, DECLARE_ARGUMENT, bind_parameters_eq ds rest h1]

theorem Bound.cons {env : Env} {n : Nat} {actuals : List CObject} (arg_id : Nat) (a : CObject)
    (hlt : n < arg_id) (h : Bound env n actuals) : Bound ((arg_id, a) :: env) n actuals := by
  induction actuals generalizing n with
  | nil =>
    cases n with
    | zero => trivial
    | succ m => exact h
  | cons b rest ih =>
    cases n with
    | zero => exact h
    | succ m =>
      obtain ⟨h1, h2⟩ := h
      refine ⟨?_, ih (by omega) h2⟩
      have hne : (m + 1 == arg_id) = false := by
        simp only [beq_eq_false_iff_ne, ne_eq]
        omega
      simp [List.lookup, hne, h1]

theorem Bound_zip : ∀ (actuals : List CObject),
    Bound (List.zip (arg_ids actuals.length) actuals) actuals.length actuals
  | [] => trivial
  | a :: rest => by
    refine ⟨by simp [arg_ids, List.lookup], ?_⟩
    exact Bound.cons _ _ (Nat.lt_succ_self _) (Bound_zip rest)

theorem run_serialize (t : Target) (env : Env) :
    ∀ (args : List ArgDecl) (actuals : List CObject) (w : Writer),
      actuals.length = args.length → Bound env args.length actuals →
      w.payload ≤ w.arg_buf.length →
      run_all (List.zipWith (SERIALIZE_ARGUMENT t env) (arg_ids args.length) args) w
        = (encoded_all t args actuals).bind fun bs => w.put bs
  | [], [], w, _, _, hw => by
    simp [arg_ids, run_all, encoded_all, Writer.put_nil w hw]
  | [], _ :: _, _, h, _, _ => by simp at h
  | _ :: _, [], _, h, _, _ => by simp at h
  | d :: ds, a :: rest, w, h, hb, hw => by
    have h1 : rest.length = ds.length := by simpa using h
    obtain ⟨hb1, hb2⟩ := hb
    simp only [List.length_cons, arg_ids, List.zipWith_cons_cons, run_all, encoded_all]
    rw [SERIALIZE_ARGUMENT_eq, hb1]
    simp only [Option.some_bind]
    cases he : encoded t d a with
    | none => rfl
    | some b =>
      simp only [Option.some_bind]
      have ih := fun w1 hw1 => run_serialize t env ds rest w1 h1 hb2 hw1
      cases hr : encoded_all t ds rest with
      | none =>
        simp only [Option.map_none', Option.none_bind]
        cases hp : w.put b with
        | none => rfl
        | some w1 => simp [ih w1 (Writer.put_bounds w w1 b hp), hr]
      | some bs =>
        simp only [Option.map_some', Option.some_bind]
        rw [← Writer.put_append]
        cases hp : w.put b with
        | none => rfl
        | some w1 => simp [ih w1 (Writer.put_bounds w w1 b hp), hr]

theorem size_of_shape (t : Target) (env : Env) (arg_id : Nat) (d : ArgDecl) (a : CObject)
    (hl : env.lookup arg_id = some a) (h : has_shape t d a = true) :
    SIZE_ARGUMENT env arg_id d = some (size_term d a) := by
  unfold SIZE_ARGUMENT size_term
  unfold has_shape at h
  split_ifs with h1
  · rw [if_pos h1] at h
    cases a with
    | dyn blob => simp [hl, CObject.as_dyn, dstc_dyndata_length]
    | val image => cases hs : d.size <;> simp [hs] at h
    | ptr image target => cases hs : d.size <;> simp [hs] at h
  · rfl

theorem sum_sizes (t : Target) (env : Env) :
    ∀ (args : List ArgDecl) (actuals : List CObject),
      has_shapes t args actuals = true → Bound env args.length actuals →
      sum_all (List.zipWith (SIZE_ARGUMENT env) (arg_ids args.length) args)
        = some (size_sum args actuals)
  | [], [], _, _ => rfl
  | [], _ :: _, h, _ => by simp [has_shapes] at h
  | _ :: _, [], h, _ => by simp [has_shapes] at h
  | d :: ds, a :: rest, h, hb => by
    simp only [has_shapes, Bool.and_eq_true] at h
    obtain ⟨hb1, hb2⟩ := hb
    simp only [List.length_cons, arg_ids, List.zipWith_cons_cons, sum_all, size_sum]
    rw [size_of_shape t env _ d a hb1 h.1, sum_sizes t env ds rest h.2 hb2]
    rfl

theorem encoded_of_shape (t : Target) (d : ArgDecl) (a : CObject) (h : has_shape t d a = true) :
    ∃ b, encoded t d a = some b ∧ b.length ≤ size_term d a := by
  obtain ⟨type, width, size⟩ := d
  unfold has_shape at h
  unfold encoded size_term
  simp only at h ⊢
  split_ifs at h ⊢ with h1 h2 h3
  · cases a with
    | dyn blob =>
      refine ⟨_, rfl, ?_⟩
      simp only [List.length_append, length_u16_image, Ptr.length_read]
      omega
    | val image => cases size <;> simp at h
    | ptr image target => cases size <;> simp at h
  · cases size with
    | some n => simp at h
    | none =>
      cases a with
      | val image =>
        simp only [decide_eq_true_eq] at h
        refine ⟨image.take t.sizeof_callback, by simp [CObject.image, h.2], ?_⟩
        simp [ArgDecl.sizeof, h.1, h.2]
      | ptr image target => simp at h
      | dyn blob => simp at h
  · cases size with
    | none =>
      cases a with
      | val image =>
        simp only [decide_eq_true_eq] at h
        refine ⟨image.take width, by simp [CObject.image, ArgDecl.sizeof, h], ?_⟩
        simp [ArgDecl.sizeof, h]
      | ptr image target => simp at h
      | dyn blob => simp at h
    | some n =>
      cases a with
      | ptr image target =>
        simp only [decide_eq_true_eq] at h
        simp only [ArgDecl.sizeof] at h3
        have hw := h h3
        refine ⟨image.take (n * width), by simp [CObject.image, ArgDecl.sizeof, h3, hw], ?_⟩
        simp [ArgDecl.sizeof, h3, hw]
      | val image => simp at h
      | dyn blob => simp at h
  · cases size with
    | none => simp [ArgDecl.sizeof] at h3
    | some n =>
      cases a with
      | ptr image target =>
        refine ⟨_, rfl, ?_⟩
        simp [Ptr.length_read]
      | val image => simp at h
      | dyn blob => simp at h

theorem encoded_all_of_shapes (t : Target) :
    ∀ (args : List ArgDecl) (actuals : List CObject), has_shapes t args actuals = true →
      ∃ bs, encoded_all t args actuals = some bs ∧ bs.length ≤ size_sum args actuals
  | [], [], _ => ⟨[], rfl, by simp [size_sum]⟩
  | [], _ :: _, h => by simp [has_shapes] at h
  | _ :: _, [], h => by simp [has_shapes] at h
  | d :: ds, a :: rest, h => by
    simp only [has_shapes, Bool.and_eq_true] at h
    obtain ⟨b, hb, hbl⟩ := encoded_of_shape t d a h.1
    obtain ⟨bs, hbs, hbsl⟩ := encoded_all_of_shapes t ds rest h.2
    refine ⟨b ++ bs, by simp [encoded_all, hb, hbs], ?_⟩
    simp only [List.length_append, size_sum]
    omega

theorem length_declare_arg_buf (arg_sz : Nat) (stack : Nat → Byte) :
    (declare_arg_buf arg_sz stack).length = arg_sz := by
  simp [declare_arg_buf]

theorem stub_core (t : Target) (args : List ArgDecl) (stack : Nat → Byte)
    (actuals : List CObject) (hn : args.length ≤ 16) (hs : has_shapes t args actuals = true) :
    ∃ env bs, encoded_all t args actuals = some bs ∧
      (DECLARE_ARGUMENTS args).bind (fun params => bind_parameters params actuals) = some env ∧
      SIZE_ARGUMENTS env args = some (size_sum args actuals) ∧
      (size_sum args actuals < 2 ^ 32 →
        SERIALIZE_ARGUMENTS t env args
            ⟨declare_arg_buf (size_sum args actuals % 2 ^ 32) stack, 0⟩
          = some ⟨filled bs (size_sum args actuals) stack, bs.length⟩) := by
  have hlen := has_shapes_length t args actuals hs
  obtain ⟨bs, hbs, hbl⟩ := encoded_all_of_shapes t args actuals hs
  have hb : Bound (List.zip (arg_ids args.length) actuals) args.length actuals := by
    have := Bound_zip actuals
    rwa [hlen] at this
  refine ⟨List.zip (arg_ids args.length) actuals, bs, hbs, ?_, ?_, ?_⟩
  · simp [DECLARE_ARGUMENTS, FOR_EACH_VARIADIC_MACRO_ELEM_eq _ args hn,
      bind_parameters_eq args actuals hlen]
  · simp [SIZE_ARGUMENTS, FOR_EACH_VARIADIC_MACRO_eq _ args hn, sum_sizes t _ args actuals hs hb]
  · intro hsz
    rw [Nat.mod_eq_of_lt hsz]
    simp only [SERIALIZE_ARGUMENTS, FOR_EACH_VARIADIC_MACRO_eq _ args hn, Option.some_bind]
    rw [run_serialize t _ args actuals _ hlen hb (Nat.zero_le _), hbs]
    simp only [Option.some_bind]
    rw [Writer.put_eq]
    · simp [filled]
    · simp only [length_declare_arg_buf]
      omega

theorem strlen_eq (s : Ptr) (h : Terminated s) (n : Nat) (hz : s.mem (s.off + n) = 0)
    (hnz : ∀ m, m < n → s.mem (s.off + m) ≠ 0) : strlen s h = n :=
  (Nat.find_eq_iff h).2 ⟨hz, fun m hm => hnz m hm⟩

theorem long_string_terminated : Terminated long_string := ⟨65535, by decide⟩

theorem strlen_long_string : strlen long_string long_string_terminated = 65535 :=
  strlen_eq _ _ 65535 (by decide) (fun m hm => by simp [long_string, hm])

theorem hello_world_terminated : Terminated hello_world := ⟨11, by decide⟩

theorem strlen_hello_world : strlen hello_world hello_world_terminated = 11 :=
  strlen_eq _ _ 11 (by decide) (by decide)

/-! ## Lemmas on the receiving side -/

theorem DESERIALIZE_ARGUMENT_eq (t : Target) (arg_id : Nat) (d : ArgDecl) (r : Reader)
    (h : (r.frame.lookup arg_id).isSome = true) :
    DESERIALIZE_ARGUMENT t arg_id d r
      = some ⟨(decoded t d r.payload).2, (arg_id, (decoded t d r.payload).1) :: r.frame⟩ := by
  obtain ⟨v, hv⟩ := Option.isSome_iff_exists.1 h
  unfold DESERIALIZE_ARGUMENT decoded
  simp only [hv, bind, Option.bind, pure]
  split_ifs <;> rfl

theorem lookup_cons_ne (frame : List (Nat × Local)) (k arg_id : Nat) (v : Local)
    (h : k ≠ arg_id) : List.lookup k ((arg_id, v) :: frame) = List.lookup k frame := by
  have hne : (k == arg_id) = false := by simpa using h
  simp [List.lookup, hne]

theorem run_declare :
    ∀ (args : List ArgDecl) (r : Reader),
      ∃ r1, run_all (List.zipWith DECLARE_VARIABLE (arg_ids args.length) args) r = some r1 ∧
        r1.payload = r.payload ∧
        ∀ k, (1 ≤ k ∧ k ≤ args.length) ∨ (r.frame.lookup k).isSome = true →
          (r1.frame.lookup k).isSome = true
  | [], r => ⟨r, rfl, rfl, fun k hk => by
      rcases hk with hk | hk
      · simp at hk
        omega
      · exact hk⟩
  | d :: ds, r => by
    obtain ⟨r1, h1, h2, h3⟩ := run_declare ds (r.store (ds.length + 1) Local.indeterminate)
    refine ⟨r1, ?_, h2, ?_⟩
    · simp only [List.length_cons, arg_ids, List.zipWith_cons_cons, run_all, DECLARE_VARIABLE,
        Option.some_bind]
      exact h1
    · intro k hk
      apply h3
      by_cases hkn : k = ds.length + 1
      · right
        subst hkn
        simp [Reader.store, List.lookup]
      · rcases hk with hk | hk
        · left
          simp only [List.length_cons] at hk
          omega
        · right
          simp only [Reader.store]
          rw [lookup_cons_ne _ _ _ _ hkn]
          exact hk

theorem run_deserialize (t : Target) :
    ∀ (args : List ArgDecl) (r : Reader),
      (∀ k, 1 ≤ k → k ≤ args.length → (r.frame.lookup k).isSome = true) →
      ∃ r1, run_all (List.zipWith (DESERIALIZE_ARGUMENT t) (arg_ids args.length) args) r
            = some r1 ∧
        (arg_ids args.length).mapM (fun arg_id => r1.frame.lookup arg_id)
            = some (decoded_all t args r.payload) ∧
        ∀ k, args.length < k → r1.frame.lookup k = r.frame.lookup k
  | [], r, _ => ⟨r, rfl, rfl, fun _ _ => rfl⟩
  | d :: ds, r, hdecl => by
    have hd := DESERIALIZE_ARGUMENT_eq t (ds.length + 1) d r
      (hdecl _ (by omega) (by simp))
    obtain ⟨r1, h1, h2, h3⟩ := run_deserialize t ds
      ⟨(decoded t d r.payload).2, (ds.length + 1, (decoded t d r.payload).1) :: r.frame⟩
      (fun k hk1 hk2 => by
        simp only
        rw [lookup_cons_ne _ _ _ _ (by omega)]
        exact hdecl k hk1 (by simp only [List.length_cons]; omega))
    refine ⟨r1, ?_, ?_, ?_⟩
    · simp only [List.length_cons, arg_ids, List.zipWith_cons_cons, run_all, hd,
        Option.some_bind]
      exact h1
    · have hk := h3 (ds.length + 1) (Nat.lt_succ_self _)
      simp only [List.lookup, beq_self_eq_true] at hk
      simp only [List.length_cons, arg_ids, List.mapM_cons, hk, decoded_all, bind, Option.bind,
        pure]
      simp only at h2
      rw [h2]
    · intro k hk
      simp only [List.length_cons] at hk
      rw [h3 k (by omega)]
      simp only
      exact lookup_cons_ne _ _ _ _ (by omega)

theorem zipWith_LIST_ARGUMENT : ∀ (args : List ArgDecl),
    List.zipWith LIST_ARGUMENT (arg_ids args.length) args = arg_ids args.length
  | [] => rfl
  | d :: ds => by simp [arg_ids, LIST_ARGUMENT, zipWith_LIST_ARGUMENT ds]

theorem receive_eq (t : Target) (args : List ArgDecl) (payload : Ptr) (h : args.length ≤ 16) :
    ((DECLARE_VARIABLES args ⟨payload, []⟩).bind fun r =>
      (DESERIALIZE_ARGUMENTS t args r).bind fun r1 =>
        (LIST_ARGUMENTS args).bind fun ids =>
          ids.mapM fun arg_id => r1.frame.lookup arg_id)
      = some (decoded_all t args payload) := by
  obtain ⟨r, hr, hp, hdecl⟩ := run_declare args ⟨payload, []⟩
  obtain ⟨r1, hr1, hl, _⟩ := run_deserialize t args r (fun k hk1 hk2 => hdecl k (Or.inl ⟨hk1, hk2⟩))
  have hids : LIST_ARGUMENTS args = some (arg_ids args.length) := by
    simp only [LIST_ARGUMENTS, FOR_EACH_VARIADIC_MACRO_ELEM_eq _ args h]
    rw [zipWith_LIST_ARGUMENT]
  simp only [DECLARE_VARIABLES, DESERIALIZE_ARGUMENTS, FOR_EACH_VARIADIC_MACRO_eq _ args h,
    Option.some_bind, hr, hr1, hids, hl, hp]

theorem DSTC_SERVER_eq (t : Target) (name : String) (args : List ArgDecl) (unused : Int)
    (node_id : Nat) (func_name : List Byte) (payload : Ptr) (payload_len : Nat)
    (h : args.length ≤ 16) :
    DSTC_SERVER t name args unused node_id func_name payload payload_len
      = some [Call.local_function name (decoded_all t args payload)] := by
  have := receive_eq t args payload h
  simp only [DSTC_SERVER, DSTC_SERVER_INTERNAL, bind, pure] at this ⊢
  cases h1 : DECLARE_VARIABLES args ⟨payload, []⟩ with
  | none => simp [h1, Option.bind] at this
  | some r =>
    simp only [h1, Option.bind] at this ⊢
    cases h2 : DESERIALIZE_ARGUMENTS t args r with
    | none => simp [h2] at this
    | some r1 =>
      simp only [h2] at this ⊢
      cases h3 : LIST_ARGUMENTS args with
      | none => simp [h3] at this
      | some ids =>
        simp only [h3] at this ⊢
        rw [this]

theorem DSTC_CLIENT_CALLBACK_eq (t : Target) (_func : String) (args : List ArgDecl)
    (callback_ref : Int) (node_id : Nat) (func_name : List Byte) (payload : Ptr)
    (payload_len : Nat) (h : args.length ≤ 16) :
    DSTC_CLIENT_CALLBACK t _func args callback_ref node_id func_name payload payload_len
      = some [Call.local_function _func (decoded_all t args payload)] := by
  have := receive_eq t args payload h
  simp only [DSTC_CLIENT_CALLBACK, bind, pure] at this ⊢
  cases h1 : DECLARE_VARIABLES args ⟨payload, []⟩ with
  | none => simp [h1, Option.bind] at this
  | some r =>
    simp only [h1, Option.bind] at this ⊢
    cases h2 : DESERIALIZE_ARGUMENTS t args r with
    | none => simp [h2] at this
    | some r1 =>
      simp only [h2] at this ⊢
      cases h3 : LIST_ARGUMENTS args with
      | none => simp [h3] at this
      | some ids =>
        simp only [h3] at this ⊢
        rw [this]

/-! ## Encoding followed by decoding -/

theorem Ptr.read_of_holds (p : Ptr) (b : List Byte) (h : p.holds b) : p.read b.length = b := by
  apply List.ext_getElem
  · simp [Ptr.read]
  · intro i h1 h2
    simp only [Ptr.read, List.getElem_map, List.getElem_range]
    exact h i h2

theorem Ptr.holds_append (p : Ptr) (b bs : List Byte) (h : p.holds (b ++ bs)) :
    p.holds b ∧ (p.add b.length).holds bs := by
  constructor
  · intro i hi
    have := h i (by simp only [List.length_append]; omega)
    simp only [List.get_eq_getElem] at this ⊢
    rw [this, List.getElem_append_left]
  · intro i hi
    have := h (b.length + i) (by simp only [List.length_append]; omega)
    simp only [List.get_eq_getElem, Ptr.add] at this ⊢
    rw [Nat.add_assoc, this, List.getElem_append_right (by omega)]
    simp

theorem holds_memory_of (bs tl : List Byte) (rest : Nat → Byte) :
    (⟨memory_of (bs ++ tl) rest, 0⟩ : Ptr).holds bs := by
  intro i hi
  have hlt : i < (bs ++ tl).length := by simp only [List.length_append]; omega
  simp only [memory_of, Nat.zero_add, hlt, dite_true, List.get_eq_getElem]
  exact List.getElem_append_left hi

theorem Ptr.add_add (p : Ptr) (m n : Nat) : (p.add m).add n = p.add (m + n) := by
  simp [Ptr.add, Nat.add_assoc]

theorem decode_encoded (t : Target) (d : ArgDecl) (a : CObject) (p : Ptr) (b : List Byte)
    (hs : has_shape t d a = true) (hreg : regular d) (he : encoded t d a = some b)
    (hp : p.holds b) :
    same_value d a (decoded t d p).1 ∧ (decoded t d p).2 = p.add b.length := by
  obtain ⟨type, width, size⟩ := d
  unfold has_shape at hs
  unfold encoded at he
  unfold decoded
  simp only at hs he ⊢
  split_ifs at hs he ⊢ with h1 h2 h3
  · cases a with
    | dyn blob =>
      cases size with
      | some n => simp at hs
      | none =>
        simp only [decide_eq_true_eq] at hs
        simp only [CObject.as_dyn, Option.map_some', Option.some.injEq] at he
        subst he
        obtain ⟨hp1, hp2⟩ := Ptr.holds_append _ _ _ hp
        have h0 := hp1 0 (by simp [length_u16_image])
        have h1 := hp1 1 (by simp [length_u16_image])
        have hu : u16_at p = blob.length := by
          simp only [u16_at]
          simp only [Nat.add_zero] at h0
          rw [h0, h1]
          simp [u16_image]
          omega
        have hr := Ptr.read_of_holds _ _ hp2
        simp only [Ptr.length_read, length_u16_image] at hr
        refine ⟨⟨hu, ?_⟩, ?_⟩
        · simp only [hu]
          exact hr
        · simp only [hu, Ptr.add_add, List.length_append, length_u16_image, Ptr.length_read]
    | val image => cases size <;> simp at hs
    | ptr image target => cases size <;> simp at hs
  · cases size with
    | some n => simp at hs
    | none =>
      cases a with
      | val image =>
        simp only [decide_eq_true_eq] at hs
        simp only [CObject.image, hs.2, le_refl, if_true, Option.some.injEq] at he
        rw [← hs.2, List.take_length] at he
        subst he
        have hr := Ptr.read_of_holds _ _ hp
        rw [hs.2] at hr
        exact ⟨hr, by rw [hs.2]⟩
      | ptr image target => simp at hs
      | dyn blob => simp at hs
  · cases size with
    | none =>
      cases a with
      | val image =>
        simp only [decide_eq_true_eq] at hs
        simp only [ArgDecl.sizeof, CObject.image, hs, le_refl, if_true, Option.some.injEq] at he
        rw [← hs, List.take_length] at he
        subst he
        have hr := Ptr.read_of_holds _ _ hp
        simp only [ArgDecl.sizeof]
        rw [hs] at hr
        exact ⟨hr, by rw [hs]⟩
      | ptr image target => simp at hs
      | dyn blob => simp at hs
    | some n =>
      rcases hreg with hreg | hreg
      · simp at hreg
      · exact absurd h3 hreg
  · cases size with
    | none => simp [ArgDecl.sizeof] at h3
    | some n =>
      cases a with
      | ptr image target =>
        simp only [CObject.deref, Option.map_some', Option.some.injEq] at he
        subst he
        have hr := Ptr.read_of_holds _ _ hp
        simp only [Ptr.length_read] at hr ⊢
        exact ⟨hr, trivial⟩
      | val image => simp at hs
      | dyn blob => simp at hs

theorem decode_encoded_all (t : Target) :
    ∀ (args : List ArgDecl) (actuals : List CObject) (p : Ptr) (bs : List Byte),
      has_shapes t args actuals = true → (∀ d, d ∈ args → regular d) →
      encoded_all t args actuals = some bs → p.holds bs →
      same_values args actuals (decoded_all t args p)
  | [], [], _, _, _, _, _, _ => trivial
  | [], _ :: _, _, _, h, _, _, _ => by simp [has_shapes] at h
  | _ :: _, [], _, _, h, _, _, _ => by simp [has_shapes] at h
  | d :: ds, a :: rest, p, bs, hs, hreg, he, hp => by
    simp only [has_shapes, Bool.and_eq_true] at hs
    simp only [encoded_all] at he
    cases hb : encoded t d a with
    | none => simp [hb] at he
    | some b =>
      cases hbs : encoded_all t ds rest with
      | none => simp [hb, hbs] at he
      | some bs1 =>
        simp only [hb, hbs, Option.some_bind, Option.map_some', Option.some.injEq] at he
        subst he
        obtain ⟨hp1, hp2⟩ := Ptr.holds_append _ _ _ hp
        obtain ⟨hv, hc⟩ := decode_encoded t d a p b hs.1 (hreg d (List.mem_cons_self _ _)) hb hp1
        refine ⟨hv, ?_⟩
        rw [hc]
        exact decode_encoded_all t ds rest _ bs1 hs.2
          (fun d1 hd1 => hreg d1 (List.mem_cons_of_mem _ hd1)) hbs hp2

/-- Round trip through the client and server stubs. For an argument list of at
most 16 pairs none of which is an array as large as one element, and values of
its shape whose summed size fits `arg_sz`, the client stub queues one buffer,
and the server stub, run on memory that holds this buffer, calls the local
function once with the values given to the client stub. -/
theorem round_trip (t : Target) (name : String) (args : List ArgDecl)
    (dstc_queue_func : String → List Byte → Nat → Int) (stack rest : Nat → Byte)
    (actuals : List CObject) (unused : Int) (node_id : Nat) (func_name : List Byte)
    (payload_len : Nat)
    (hn : args.length ≤ 16) (hs : has_shapes t args actuals = true)
    (hreg : ∀ d, d ∈ args → regular d) (hsz : size_sum args actuals < 2 ^ 32) :
    ∃ arg_buf,
      DSTC_CLIENT t name args dstc_queue_func stack actuals
        = some (dstc_queue_func name arg_buf (size_sum args actuals),
            [Call.queue_func name arg_buf (size_sum args actuals)]) ∧
      DSTC_SERVER t name args unused node_id func_name ⟨memory_of arg_buf rest, 0⟩ payload_len
        = some [Call.local_function name (decoded_all t args ⟨memory_of arg_buf rest, 0⟩)] ∧
      same_values args actuals (decoded_all t args ⟨memory_of arg_buf rest, 0⟩) := by
  obtain ⟨env, bs, hbs, henv, hsize, hser⟩ := stub_core t args stack actuals hn hs
  refine ⟨filled bs (size_sum args actuals) stack, ?_, DSTC_SERVER_eq _ _ _ _ _ _ _ _ hn, ?_⟩
  · cases hd : DECLARE_ARGUMENTS args with
    | none => simp [hd] at henv
    | some params =>
      simp only [hd, Option.some_bind] at henv
      have hmod : size_sum args actuals % 4294967296 = size_sum args actuals :=
        Nat.mod_eq_of_lt hsz
      have hser1 := hser hsz
      rw [Nat.mod_eq_of_lt hsz] at hser1
      simp [DSTC_CLIENT, hd, henv, hsize, hser1, hmod]
  · exact decode_encoded_all t args actuals _ bs hs hreg hbs (holds_memory_of _ _ _)

/-- Round trip through the callback stubs. Under the same conditions, for a
non-empty argument list and a non-zero handle, the function generated by
`DSTC_SERVER_CALLBACK` queues one buffer, and the dispatcher generated by
`DSTC_CLIENT_CALLBACK`, run on memory that holds this buffer, calls the callback
once with the values given. -/
theorem callback_round_trip (t : Target) (_func : String) (args : List ArgDecl)
    (dstc_queue_callback : Int → List Byte → Nat → Int) (stack rest : Nat → Byte)
    (cb_ref : Int) (actuals : List CObject) (callback_ref : Int) (node_id : Nat)
    (func_name : List Byte) (payload_len : Nat)
    (hne : args ≠ []) (hcb : cb_ref ≠ 0)
    (hn : args.length ≤ 16) (hs : has_shapes t args actuals = true)
    (hreg : ∀ d, d ∈ args → regular d) (hsz : size_sum args actuals < 2 ^ 32) :
    ∃ arg_buf,
      DSTC_SERVER_CALLBACK t args dstc_queue_callback stack cb_ref actuals
        = some (dstc_queue_callback cb_ref arg_buf (size_sum args actuals),
            [Call.queue_callback cb_ref arg_buf (size_sum args actuals)]) ∧
      DSTC_CLIENT_CALLBACK t _func args callback_ref node_id func_name
          ⟨memory_of arg_buf rest, 0⟩ payload_len
        = some [Call.local_function _func (decoded_all t args ⟨memory_of arg_buf rest, 0⟩)] ∧
      same_values args actuals (decoded_all t args ⟨memory_of arg_buf rest, 0⟩) := by
  obtain ⟨env, bs, hbs, henv, hsize, hser⟩ := stub_core t args stack actuals hn hs
  have hemp : args.isEmpty = false := by
    cases args with
    | nil => exact absurd rfl hne
    | cons d ds => rfl
  refine ⟨filled bs (size_sum args actuals) stack, ?_,
    DSTC_CLIENT_CALLBACK_eq _ _ _ _ _ _ _ _ hn, ?_⟩
  · cases hd : DECLARE_ARGUMENTS args with
    | none => simp [hd] at henv
    | some params =>
      simp only [hd, Option.some_bind] at henv
      have hmod : size_sum args actuals % 4294967296 = size_sum args actuals :=
        Nat.mod_eq_of_lt hsz
      have hser1 := hser hsz
      rw [Nat.mod_eq_of_lt hsz] at hser1
      simp [DSTC_SERVER_CALLBACK, hemp, hd, henv, hsize, hcb, hser1, hmod]
  · exact decode_encoded_all t args actuals _ bs hs hreg hbs (holds_memory_of _ _ _)

/-- The example of `no_argument_server.c`: `one_argument_function`, declared with
the shape `(int,)`, receives 4711 when the client stub is given 4711. -/
theorem round_trip_4711 :
    DSTC_CLIENT ⟨8⟩ "one_argument_function" [⟨"int", 4, none⟩] (fun _ _ _ => 0)
        (fun _ => 0xEE) [CObject.val [0x67, 0x12, 0, 0]]
      = some (0, [Call.queue_func "one_argument_function" [0x67, 0x12, 0, 0] 4]) ∧
    DSTC_SERVER ⟨8⟩ "one_argument_function" [⟨"int", 4, none⟩] 0 0 []
        ⟨memory_of [0x67, 0x12, 0, 0] (fun _ => 0), 0⟩ 4
      = some [Call.local_function "one_argument_function" [Local.bytes [0x67, 0x12, 0, 0]]] :=
  ⟨rfl, rfl⟩

/-! ## Lemmas on the type tag -/

theorem getElem?_zipWith_arg_ids {β : Type} (_call : Nat → ArgDecl → β) :
    ∀ (args : List ArgDecl) (i : Nat),
      (List.zipWith _call (arg_ids args.length) args)[i]?
        = (args[i]?).map (_call (args.length - i))
  | [], i => by simp [arg_ids]
  | d :: ds, 0 => by simp [arg_ids]
  | d :: ds, i + 1 => by
    simp only [List.length_cons, arg_ids, List.zipWith_cons_cons, List.getElem?_cons_succ,
      Nat.succ_sub_succ]
    exact getElem?_zipWith_arg_ids _call ds i

theorem zipWith_DECLARE_ARGUMENT : ∀ (args : List ArgDecl),
    List.zipWith DECLARE_ARGUMENT (arg_ids args.length) args
      = List.zip (arg_ids args.length) args
  | [] => rfl
  | d :: ds => by simp [arg_ids, DECLARE_ARGUMENT, zipWith_DECLARE_ARGUMENT ds]

/-! ## Lemmas on the steps of the serializer -/

theorem SERIALIZE_ARGUMENTS_upto_length (t : Target) (env : Env) (args : List ArgDecl)
    (w : Writer) :
    SERIALIZE_ARGUMENTS_upto t env args args.length w = SERIALIZE_ARGUMENTS t env args w := by
  unfold SERIALIZE_ARGUMENTS_upto SERIALIZE_ARGUMENTS
  cases h : FOR_EACH_VARIADIC_MACRO (SERIALIZE_ARGUMENT t env) args with
  | none => rfl
  | some stmts =>
    have hl : stmts.length ≤ args.length := by
      unfold FOR_EACH_VARIADIC_MACRO at h
      split_ifs at h with h16
      rw [_FE_eq] at h
      cases h
      simp [List.length_zipWith]
    simp [List.take_of_length_le hl]

/-! ## Lemmas on the poll event user data -/

theorem testBit_DSTC_EVENT_FLAG (j : Nat) : DSTC_EVENT_FLAG.testBit j = decide (31 = j) := by
  have h : DSTC_EVENT_FLAG = 2 ^ 31 := by decide
  rw [h, Nat.testBit_two_pow]

theorem testBit_complement_DSTC_EVENT_FLAG (j : Nat) :
    (complement_u32 DSTC_EVENT_FLAG).testBit j = decide (j < 31) := by
  have h : complement_u32 DSTC_EVENT_FLAG = 2 ^ 31 - 1 := by decide
  rw [h, Nat.testBit_two_pow_sub_one]

/-- Used where `index` stands for the value passed as `_index`, an index inside
`USER_DATA_INDEX_MASK` and below bit 31 is recovered by
`FROM_POLL_EVENT_USER_DATA`, provided `USER_DATA_PUB_FLAG` is disjoint from the
mask. -/
theorem event_index_round_trip (USER_DATA_PUB_FLAG USER_DATA_INDEX_MASK i : Nat)
    (is_pub : Bool)
    (hi : i &&& USER_DATA_INDEX_MASK &&& complement_u32 DSTC_EVENT_FLAG = i)
    (hd : USER_DATA_PUB_FLAG &&& USER_DATA_INDEX_MASK = 0) :
    FROM_POLL_EVENT_USER_DATA USER_DATA_INDEX_MASK
      (TO_POLL_EVENT_USER_DATA USER_DATA_PUB_FLAG i i is_pub) = i := by
  apply Nat.eq_of_testBit_eq
  intro j
  have hij := congrArg (fun x => x.testBit j) hi
  have hdj := congrArg (fun x => x.testBit j) hd
  simp only [Nat.testBit_and, testBit_complement_DSTC_EVENT_FLAG, Nat.zero_testBit] at hij hdj
  simp only [FROM_POLL_EVENT_USER_DATA, TO_POLL_EVENT_USER_DATA, Nat.testBit_and,
    Nat.testBit_or, testBit_complement_DSTC_EVENT_FLAG, testBit_DSTC_EVENT_FLAG]
  by_cases h31 : j < 31
  · have hne : ¬ 31 = j := by omega
    cases is_pub <;>
      cases hb : i.testBit j <;> cases hm : USER_DATA_INDEX_MASK.testBit j <;>
      cases hp : USER_DATA_PUB_FLAG.testBit j <;> simp_all
  · rw [← hij]
    simp [h31]

/-! ## Properties of the generated code -/

/-- C1, at a failing input. For the shape `(char, [1])` the client stub, given a
pointer to an array that holds 0x41, queues the first byte of the pointer itself
(here 0x10), and the server stub run on that payload calls the local function
with an array that holds 0x10: the value received is not the value given. -/
theorem round_trip_one_element_array :
    DSTC_CLIENT ⟨8⟩ "f" [⟨"char", 1, some 1⟩] (fun _ _ _ => 0) (fun _ => 0xEE)
        [CObject.ptr [0x10, 0x20, 0x30, 0x40, 0x50, 0x60, 0, 0] one_char]
      = some (0, [Call.queue_func "f" [0x10] 1]) ∧
    DSTC_SERVER ⟨8⟩ "f" [⟨"char", 1, some 1⟩] 0 0 [] ⟨memory_of [0x10] (fun _ => 0), 0⟩ 1
      = some [Call.local_function "f" [Local.bytes [0x10]]] ∧
    one_char.read 1 = [0x41] :=
  ⟨rfl, rfl, rfl⟩

/-- C2, at a failing input. For one dynamic blob of 11 bytes `SIZE_ARGUMENTS`
yields 15, while `SERIALIZE_ARGUMENTS` stores 13 bytes: the cursor ends at 13. -/
theorem size_exceeds_bytes_written :
    SIZE_ARGUMENTS [(1, CObject.dyn (DSTC_DYNAMIC_ARG hello_world 11))] [⟨"DSTC", 16, none⟩]
      = some 15 ∧
    (SERIALIZE_ARGUMENTS ⟨8⟩ [(1, CObject.dyn (DSTC_DYNAMIC_ARG hello_world 11))]
        [⟨"DSTC", 16, none⟩] (fresh 15)).map (fun w => w.payload) = some 13 :=
  ⟨rfl, rfl⟩

/-- C3, at a failing input. For one dynamic blob holding the 11 bytes of
"hello world" the client stub hands `dstc_queue_func` a buffer of 15 bytes: the
13 bytes of the encoded argument and, after them, two bytes of the array that
nothing was stored in (here 0xEE). -/
theorem client_payload_has_trailing_bytes :
    DSTC_CLIENT ⟨8⟩ "send_blob" [⟨"DSTC", 16, none⟩] (fun _ _ _ => 0) (fun _ => 0xEE)
        [CObject.dyn (DSTC_DYNAMIC_ARG hello_world 11)]
      = some (0, [Call.queue_func "send_blob"
          [11, 0, 0x68, 0x65, 0x6C, 0x6C, 0x6F, 0x20, 0x77, 0x6F, 0x72, 0x6C, 0x64, 0xEE, 0xEE]
          15]) ∧
    encoded_all ⟨8⟩ [⟨"DSTC", 16, none⟩] [CObject.dyn (DSTC_DYNAMIC_ARG hello_world 11)]
      = some [11, 0, 0x68, 0x65, 0x6C, 0x6C, 0x6F, 0x20, 0x77, 0x6F, 0x72, 0x6C, 0x64] :=
  ⟨rfl, rfl⟩

/-- C4. `SERIALIZE_ARGUMENT` on a dynamic blob of length `L ≤ 65535` stores, at the
cursor, the two bytes of the host-endian `uint16_t` `L` followed by the first `L`
bytes at the blob's data pointer, leaves the rest of the buffer as it was, and
advances the cursor by `2 + L`; the stored length, read back, is `L`, the number
of data bytes that follow it. -/
theorem serialize_dynamic_blob (t : Target) (env : Env) (arg_id : Nat) (d : ArgDecl)
    (blob : dstc_dynamic_data_t) (w : Writer) (rest : Nat → Byte)
    (htag : type_tag d.type = DSTC_DYNARG_TAG)
    (harg : env.lookup arg_id = some (CObject.dyn blob))
    (hlen : blob.length ≤ 65535)
    (hroom : w.payload + (2 + blob.length) ≤ w.arg_buf.length) :
    SERIALIZE_ARGUMENT t env arg_id d w = some
        { arg_buf := w.arg_buf.take w.payload
            ++ (u16_image blob.length ++ blob.data.read blob.length)
            ++ w.arg_buf.drop (w.payload + (2 + blob.length)),
          payload := w.payload + (2 + blob.length) } ∧
      (u16_image blob.length ++ blob.data.read blob.length).length = 2 + blob.length ∧
      u16_at ⟨memory_of (u16_image blob.length) rest, 0⟩ = blob.length ∧
      (blob.data.read blob.length).length = blob.length := by
  have hl : (u16_image blob.length ++ blob.data.read blob.length).length = 2 + blob.length := by
    simp [length_u16_image, Ptr.length_read]
  refine ⟨?_, hl, ?_, Ptr.length_read _ _⟩
  · rw [SERIALIZE_ARGUMENT_eq, harg]
    simp only [Option.some_bind, encoded, if_pos htag, CObject.as_dyn, Option.map_some']
    rw [Writer.put_eq _ _ (by rw [hl]; exact hroom), hl]
  · simp only [u16_at, memory_of, u16_image]
    simp
    omega

/-- C4 at a concrete input: the blob of the 11 bytes of "hello world" stored at the
start of a buffer of 15 bytes. -/
theorem serialize_dynamic_blob_witness :
    SERIALIZE_ARGUMENT ⟨8⟩ [(1, CObject.dyn ⟨11, hello_world⟩)] 1 ⟨"DSTC", 16, none⟩ (fresh 15)
        = some
        { arg_buf := (fresh 15).arg_buf.take (fresh 15).payload
            ++ (u16_image 11 ++ hello_world.read 11)
            ++ (fresh 15).arg_buf.drop ((fresh 15).payload + (2 + 11)),
          payload := (fresh 15).payload + (2 + 11) } ∧
      (u16_image 11 ++ hello_world.read 11).length = 2 + 11 ∧
      u16_at ⟨memory_of (u16_image 11) (fun _ => 0), 0⟩ = 11 ∧
      (hello_world.read 11).length = 11 :=
  serialize_dynamic_blob ⟨8⟩ [(1, CObject.dyn ⟨11, hello_world⟩)] 1 ⟨"DSTC", 16, none⟩
    ⟨11, hello_world⟩ (fresh 15) (fun _ => 0) (by decide) rfl (by decide) (by decide)

/-- C5, at a failing input. For the fixed array `(int, [1])`, whose parameter is a
pointer (here with the image 10 20 30 40 50 60 00 00) to an element holding 1,
`SERIALIZE_ARGUMENT` stores the first four bytes of the pointer, not the four
bytes of the element. -/
theorem serialize_one_element_array :
    SERIALIZE_ARGUMENT ⟨8⟩ [(1, CObject.ptr [0x10, 0x20, 0x30, 0x40, 0x50, 0x60, 0, 0] one_int)]
        1 ⟨"int", 4, some 1⟩ (fresh 4)
      = some ⟨[0x10, 0x20, 0x30, 0x40], 4⟩ ∧
    one_int.read 4 = [1, 0, 0, 0] :=
  ⟨rfl, rfl⟩

/-- C6, at a failing input. For the shape `(char, [1])` and the handle 5 the
function generated by `DSTC_SERVER_CALLBACK`, given a pointer to an array that
holds 0x41, queues the first byte of the pointer (here 0x7C); the dispatcher
generated by `DSTC_CLIENT_CALLBACK`, run on that buffer, calls the callback
with an array that holds 0x7C. -/
theorem callback_round_trip_one_element_array :
    DSTC_SERVER_CALLBACK ⟨8⟩ [⟨"char", 1, some 1⟩] (fun _ _ _ => 0) (fun _ => 0xEE) 5
        [CObject.ptr [0x7C, 0x20, 0x30, 0x40, 0x50, 0x60, 0, 0] one_char]
      = some (0, [Call.queue_callback 5 [0x7C] 1]) ∧
    DSTC_CLIENT_CALLBACK ⟨8⟩ "reply" [⟨"char", 1, some 1⟩] 5 0 []
        ⟨memory_of [0x7C] (fun _ => 0), 0⟩ 1
      = some [Call.local_function "reply" [Local.bytes [0x7C]]] ∧
    one_char.read 1 = [0x41] :=
  ⟨rfl, rfl, rfl⟩

/-- C9. With an empty argument list the client stub computes `arg_sz = 0` and
queues an empty payload, and the server stub generated by `DSTC_SERVER(name)`
calls the local function exactly once, with no argument, for every payload and
`payload_len`; deserialization leaves the cursor where it was, no payload byte
being read. -/
theorem no_argument_call (t : Target) (name : String)
    (dstc_queue_func : String → List Byte → Nat → Int) (stack : Nat → Byte)
    (unused : Int) (node_id : Nat) (func_name : List Byte) (payload : Ptr) (payload_len : Nat) :
    SIZE_ARGUMENTS [] [] = some 0 ∧
    DSTC_CLIENT t name [] dstc_queue_func stack []
      = some (dstc_queue_func name [] 0, [Call.queue_func name [] 0]) ∧
    DSTC_SERVER t name [] unused node_id func_name payload payload_len
      = some [Call.local_function name []] ∧
    DESERIALIZE_ARGUMENTS t [] ⟨payload, []⟩ = some ⟨payload, []⟩ :=
  ⟨rfl, rfl, rfl, rfl⟩

/-- C10, counterexample. For the string of 65535 letters `a`, `strlen` is 65535
and `DSTC_STRING_ARG` yields the length 0, not 65536. -/
theorem string_arg_length_wraps :
    strlen long_string long_string_terminated + 1 = 65536 ∧
    (DSTC_STRING_ARG long_string long_string_terminated).length = 0 ∧
    (DSTC_STRING_ARG long_string long_string_terminated).length
      ≠ strlen long_string long_string_terminated + 1 := by
  simp [DSTC_STRING_ARG, strlen_long_string]

/-- C10, amended. For every null-terminated string `s`, `DSTC_STRING_ARG(s)` yields
a dynamic blob whose data is `s` and whose length is `strlen(s) + 1` reduced
modulo 65536; the length is `strlen(s) + 1`, counting the terminating null,
whenever `strlen(s)` is at most 65534. -/
theorem string_arg_length (s : Ptr) (h : Terminated s) :
    (DSTC_STRING_ARG s h).data = s ∧
    (DSTC_STRING_ARG s h).length = (strlen s h + 1) % 65536 ∧
    (strlen s h ≤ 65534 → (DSTC_STRING_ARG s h).length = strlen s h + 1) := by
  refine ⟨rfl, ?_, ?_⟩
  · simp only [DSTC_STRING_ARG]
    omega
  · intro hle
    simp only [DSTC_STRING_ARG]
    omega

/-- C10, amended, at a concrete input: the string "hello world" gets the length 12. -/
theorem string_arg_length_witness :
    (DSTC_STRING_ARG hello_world hello_world_terminated).data = hello_world ∧
    (DSTC_STRING_ARG hello_world hello_world_terminated).length = 12 :=
  ⟨(string_arg_length hello_world hello_world_terminated).1,
   ((string_arg_length hello_world hello_world_terminated).2.2
      (by rw [strlen_hello_world]; decide)).trans (by rw [strlen_hello_world])⟩

/-- C11. When `DESERIALIZE_ARGUMENT` decodes a dynamic blob with the cursor at
position `p` of the inbound buffer, it sets the decoded length to the host-endian
`uint16_t` `L` stored at `p`, sets the decoded data pointer to position `p + 2`
of the same buffer, no byte being copied, and advances the cursor to
`p + 2 + L`. -/
theorem deserialize_dynamic_blob (t : Target) (arg_id : Nat) (d : ArgDecl) (r : Reader)
    (htag : type_tag d.type = DSTC_DYNARG_TAG)
    (hdecl : (r.frame.lookup arg_id).isSome = true) :
    DESERIALIZE_ARGUMENT t arg_id d r = some
      { payload := ⟨r.payload.mem, r.payload.off + 2 + u16_at r.payload⟩,
        frame := (arg_id,
          Local.dyn ⟨u16_at r.payload, ⟨r.payload.mem, r.payload.off + 2⟩⟩) :: r.frame } := by
  rw [DESERIALIZE_ARGUMENT_eq t arg_id d r hdecl]
  simp [decoded, htag, Ptr.add]

/-- C11 at a concrete input: a blob of three bytes decoded at position 4. -/
theorem deserialize_dynamic_blob_witness :
    DESERIALIZE_ARGUMENT ⟨8⟩ 1 ⟨"DSTC", 16, none⟩ ⟨⟨inbound, 4⟩, [(1, Local.indeterminate)]⟩
      = some
      { payload := ⟨inbound, 9⟩,
        frame := [(1, Local.dyn ⟨3, ⟨inbound, 6⟩⟩), (1, Local.indeterminate)] } :=
  deserialize_dynamic_blob ⟨8⟩ 1 ⟨"DSTC", 16, none⟩ ⟨⟨inbound, 4⟩, [(1, Local.indeterminate)]⟩
    (by decide) rfl

/-- C13. For every declared shape and every payload, the server stub generated by
`DSTC_SERVER_INTERNAL` and the dispatcher generated by `DSTC_CLIENT_CALLBACK` call
the local function exactly once and reject nothing; the arguments passed are
those decoded from the payload by the declared shape, so invocations that differ
only in `payload_len`, `node_id`, `func_name` or the callback reference pass the
same arguments: `payload_len` is not looked at. -/
theorem shape_mismatch_ignored (t : Target) (name : String) (args : List ArgDecl)
    (unused unused1 callback_ref callback_ref1 : Int) (node_id node_id1 : Nat)
    (func_name func_name1 : List Byte) (payload : Ptr) (payload_len payload_len1 : Nat)
    (h : args.length ≤ 16) :
    DSTC_SERVER_INTERNAL t name args unused node_id func_name payload payload_len
      = some [Call.local_function name (decoded_all t args payload)] ∧
    DSTC_CLIENT_CALLBACK t name args callback_ref node_id func_name payload payload_len
      = some [Call.local_function name (decoded_all t args payload)] ∧
    DSTC_SERVER_INTERNAL t name args unused1 node_id1 func_name1 payload payload_len1
      = DSTC_SERVER_INTERNAL t name args unused node_id func_name payload payload_len ∧
    DSTC_CLIENT_CALLBACK t name args callback_ref1 node_id1 func_name1 payload payload_len1
      = DSTC_CLIENT_CALLBACK t name args callback_ref node_id func_name payload payload_len := by
  have hs : ∀ u n f l, DSTC_SERVER_INTERNAL t name args u n f payload l
      = some [Call.local_function name (decoded_all t args payload)] :=
    fun u n f l => DSTC_SERVER_eq t name args u n f payload l h
  have hc : ∀ c n f l, DSTC_CLIENT_CALLBACK t name args c n f payload l
      = some [Call.local_function name (decoded_all t args payload)] :=
    fun c n f l => DSTC_CLIENT_CALLBACK_eq t name args c n f payload l h
  exact ⟨hs _ _ _ _, hc _ _ _ _, by rw [hs, hs], by rw [hc, hc]⟩

/-- C13 at a concrete input: the shape `(int,)` needs four bytes; with
`payload_len` 0 the stub still calls `one_argument_function`, with the four
bytes found at the payload pointer. -/
theorem shape_mismatch_ignored_witness :
    DSTC_SERVER_INTERNAL ⟨8⟩ "one_argument_function" [⟨"int", 4, none⟩] 0 0 []
        ⟨memory_of [0x67, 0x12, 0, 0] (fun _ => 0), 0⟩ 0
      = some [Call.local_function "one_argument_function" [Local.bytes [0x67, 0x12, 0, 0]]] :=
  (shape_mismatch_ignored ⟨8⟩ "one_argument_function" [⟨"int", 4, none⟩] 0 0 0 0 0 0 [] []
    ⟨memory_of [0x67, 0x12, 0, 0] (fun _ => 0), 0⟩ 0 0 (by decide)).1

/-- C15. For an argument list of `k` pairs, `k ≤ 16`, `FOR_EACH_VARIADIC_MACRO` and
`FOR_EACH_VARIADIC_MACRO_ELEM` apply `_call` exactly `k` times, in declared
order, the pair at position `i` (counted from 0) with the identifier `k - i`,
which is `k + 1 - (i + 1)`.  So the parameters are declared, and the call list
is written, with the identifiers `k, ..., 1` in this order, and the server stub
passes the decoded arguments in declared order. -/
theorem argument_iteration {β : Type} (_call : Nat → ArgDecl → β) (args : List ArgDecl)
    (i : Nat) (t : Target) (name : String) (unused : Int) (node_id : Nat)
    (func_name : List Byte) (payload : Ptr) (payload_len : Nat)
    (h : args.length ≤ 16) :
    FOR_EACH_VARIADIC_MACRO _call args
      = some (List.zipWith _call (arg_ids args.length) args) ∧
    FOR_EACH_VARIADIC_MACRO_ELEM _call args
      = some (List.zipWith _call (arg_ids args.length) args) ∧
    (List.zipWith _call (arg_ids args.length) args).length = args.length ∧
    (List.zipWith _call (arg_ids args.length) args)[i]?
      = (args[i]?).map (_call (args.length - i)) ∧
    DECLARE_ARGUMENTS args = some (List.zip (arg_ids args.length) args) ∧
    LIST_ARGUMENTS args = some (arg_ids args.length) ∧
    DSTC_SERVER t name args unused node_id func_name payload payload_len
      = some [Call.local_function name (decoded_all t args payload)] := by
  refine ⟨FOR_EACH_VARIADIC_MACRO_eq _call args h, FOR_EACH_VARIADIC_MACRO_ELEM_eq _call args h,
    ?_, getElem?_zipWith_arg_ids _call args i, ?_, ?_, DSTC_SERVER_eq _ _ _ _ _ _ _ _ h⟩
  · have hl : ∀ (l : List ArgDecl), (arg_ids l.length).length = l.length := by
      intro l
      induction l with
      | nil => rfl
      | cons d ds ih => simp [arg_ids, ih]
    simp [hl]
  · rw [DECLARE_ARGUMENTS, FOR_EACH_VARIADIC_MACRO_ELEM_eq _ args h, zipWith_DECLARE_ARGUMENT]
  · rw [LIST_ARGUMENTS, FOR_EACH_VARIADIC_MACRO_ELEM_eq _ args h, zipWith_LIST_ARGUMENT]

/-- C15 at a concrete input: three declared arguments get the identifiers 3, 2, 1. -/
theorem argument_iteration_witness :
    FOR_EACH_VARIADIC_MACRO LIST_ARGUMENT
        [⟨"int", 4, none⟩, ⟨"char", 1, some 16⟩, ⟨"DSTC", 16, none⟩]
      = some [3, 2, 1] ∧
    DECLARE_ARGUMENTS [⟨"int", 4, none⟩, ⟨"char", 1, some 16⟩, ⟨"DSTC", 16, none⟩]
      = some [(3, ⟨"int", 4, none⟩), (2, ⟨"char", 1, some 16⟩), (1, ⟨"DSTC", 16, none⟩)] :=
  ⟨(argument_iteration LIST_ARGUMENT
      [⟨"int", 4, none⟩, ⟨"char", 1, some 16⟩, ⟨"DSTC", 16, none⟩] 0 ⟨8⟩ "f" 0 0 []
      ⟨inbound, 0⟩ 0 (by decide)).1,
   (argument_iteration LIST_ARGUMENT
      [⟨"int", 4, none⟩, ⟨"char", 1, some 16⟩, ⟨"DSTC", 16, none⟩] 0 ⟨8⟩ "f" 0 0 []
      ⟨inbound, 0⟩ 0 (by decide)).2.2.2.2.1⟩

/-- C16. For every data pointer `d` and every non-negative `n`,
`DSTC_DYNAMIC_ARG(d, n)` yields a blob whose data is `d` and whose length is
`n mod 65536`: it is `n` for `n ≤ 65535`, 11 for the header's example, and for
`n ≥ 65536` a smaller value is stored, nothing being rejected. -/
theorem dynamic_arg_length (_data : Ptr) (n : Nat) :
    (DSTC_DYNAMIC_ARG _data n).data = _data ∧
    (DSTC_DYNAMIC_ARG _data n).length = n % 65536 ∧
    (n ≤ 65535 → (DSTC_DYNAMIC_ARG _data n).length = n) ∧
    (65536 ≤ n → (DSTC_DYNAMIC_ARG _data n).length < n) ∧
    (DSTC_DYNAMIC_ARG hello_world 11).length = 11 := by
  refine ⟨rfl, rfl, ?_, ?_, rfl⟩
  · intro h
    simp only [DSTC_DYNAMIC_ARG]
    omega
  · intro h
    simp only [DSTC_DYNAMIC_ARG]
    omega

/-- C16 at concrete inputs: the lengths 300 and 65547. -/
theorem dynamic_arg_length_witness :
    (DSTC_DYNAMIC_ARG hello_world 300).length = 300 ∧
    (DSTC_DYNAMIC_ARG hello_world 65547).length < 65547 :=
  ⟨(dynamic_arg_length hello_world 300).2.2.1 (by decide),
   (dynamic_arg_length hello_world 65547).2.2.2.1 (by decide)⟩

/-- C17. Whatever `index`, the publisher flag, `USER_DATA_PUB_FLAG` and
`USER_DATA_INDEX_MASK` are, the value `TO_POLL_EVENT_USER_DATA` builds has bit 31,
the `DSTC_EVENT_FLAG` bit, set, and the value `FROM_POLL_EVENT_USER_DATA` returns
for any user-data word has it clear. -/
theorem event_flag_bit (USER_DATA_PUB_FLAG USER_DATA_INDEX_MASK index _index _user_data : Nat)
    (is_pub : Bool) :
    DSTC_EVENT_FLAG = 2 ^ 31 ∧
    (TO_POLL_EVENT_USER_DATA USER_DATA_PUB_FLAG index _index is_pub).testBit 31 = true ∧
    (FROM_POLL_EVENT_USER_DATA USER_DATA_INDEX_MASK _user_data).testBit 31 = false := by
  have h1 : DSTC_EVENT_FLAG.testBit 31 = true := by decide
  have h2 : (complement_u32 DSTC_EVENT_FLAG).testBit 31 = false := by decide
  refine ⟨by decide, ?_, ?_⟩
  · simp only [TO_POLL_EVENT_USER_DATA, Nat.testBit_or, h1, Bool.or_true]
  · simp only [FROM_POLL_EVENT_USER_DATA, Nat.testBit_and, h2, Bool.and_false]

/-- C18, at a failing input. With `USER_DATA_INDEX_MASK` 0x7FFF and
`USER_DATA_PUB_FLAG` 0x8000, used where `index` is 5, the expression
`TO_POLL_EVENT_USER_DATA(3, is_pub)` builds its value from 5: decoding it gives
5, not 3, and passing 4 instead of 3 gives the same value. -/
theorem event_index_ignores_parameter :
    3 &&& 0x7FFF &&& complement_u32 DSTC_EVENT_FLAG = 3 ∧
    0x8000 &&& 0x7FFF = 0 ∧
    FROM_POLL_EVENT_USER_DATA 0x7FFF (TO_POLL_EVENT_USER_DATA 0x8000 5 3 true) = 5 ∧
    TO_POLL_EVENT_USER_DATA 0x8000 5 4 true = TO_POLL_EVENT_USER_DATA 0x8000 5 3 true := by
  decide

/-- C19, counterexample. The tag constants differ from the values that the header
comments give for the cookies. -/
theorem tags_differ_from_comments :
    DSTC_DYNARG_TAG ≠ 0x44535443 ∧ DSTC_CALLBACK_TAG ≠ 0x4342434B := by
  decide

/-- C19, amended. The tag constants are the host-endian (little-endian) words of
their four-character cookies: `DSTC_DYNARG_TAG` is 0x43545344, the word read
from the bytes `D`, `S`, `T`, `C`, and `DSTC_CALLBACK_TAG` is 0x4B434243, the word
read from `C`, `B`, `C`, `K`; the values in the header comments, 0x44535443 and
0x4342434B, are the words of these bytes in the opposite order. -/
theorem tags_are_little_endian_cookies :
    DSTC_DYNARG_TAG = 0x43545344 ∧ DSTC_DYNARG_TAG = type_tag "DSTC" ∧
    DSTC_DYNARG_TAG = word32 [0x44, 0x53, 0x54, 0x43] ∧
    DSTC_CALLBACK_TAG = 0x4B434243 ∧ DSTC_CALLBACK_TAG = type_tag "CBCK" ∧
    DSTC_CALLBACK_TAG = word32 [0x43, 0x42, 0x43, 0x4B] ∧
    word32 [0x43, 0x54, 0x53, 0x44] = 0x44535443 ∧
    word32 [0x4B, 0x43, 0x42, 0x43] = 0x4342434B := by
  decide

end Dstc
